import Mathlib

/-!
Shallow embedding of the Multinomial Naive Bayes spam filter
(`naive_bayes_spam_filter.ipynb`) and verification of its specification.

Numbers are modelled with exact rationals (`ℚ`); Python dicts keyed by
vocabulary words are modelled as association lists (`List (String × ℚ)`);
the `"ham"` / `"spam"` label strings are modelled as a closed enumeration.
The character-level regex `\W` (non-word character) is modelled on its
ASCII fragment: letters, digits and the underscore are word characters.
-/

namespace SpamFilter

/-- The two classification labels (the `"ham"` / `"spam"` strings of the
notebook's `Label` column). -/
inductive Label where
  | ham
  | spam
deriving DecidableEq, Repr

/-- A training example: a label together with the raw message text
(one row of the notebook's `train` dataframe). -/
abbrev Example := Label × String

/-- ASCII fragment of Python's word-character class `\w` used by the regex
`\W` in the notebook: letters, digits, underscore. -/
def pyWordChar (c : Char) : Bool :=
  c.isAlphanum || c == '_'

/-- Python's `str.split()` with no separator: split on runs of whitespace,
discarding empty tokens.  `acc` holds the characters of the token currently
being read, in reverse. -/
def pySplitAux : List Char → List Char → List String
  | [], acc => if acc.isEmpty then [] else [acc.reverse.asString]
  | c :: cs, acc =>
    if c.isWhitespace then
      if acc.isEmpty then pySplitAux cs []
      else acc.reverse.asString :: pySplitAux cs []
    else pySplitAux cs (c :: acc)

/-- Python's `str.split()` with no separator. -/
def pySplit (s : String) : List String :=
  pySplitAux s.data []

/-- Training-side tokenization (data-clean cell):
`train['SMS'].str.replace('\W', ' ')` followed by `.str.lower().str.split()`. -/
def tokenizeTrain (s : String) : List String :=
  pySplit (((s.data.map (fun c => if pyWordChar c then c else ' ')).map Char.toLower).asString)

/-- Classification-side tokenization (`classify`, text clean up line):
`re.sub("\W", " ", message).lower().split()`. -/
def tokenizeClassify (s : String) : List String :=
  pySplit (((s.data.map (fun c => if pyWordChar c then c else ' ')).map Char.toLower).asString)

/-- The rows of the training dataframe carrying a given label
(`ham_df` / `spam_df`). -/
def examplesWith (L : Label) (examples : List Example) : List Example :=
  examples.filter (fun e => e.1 = L)

/-- The global vocabulary: the distinct tokens over all training examples
(`vocabulary = list(set(vocabulary))` in the data-clean cell). -/
def vocabulary (examples : List Example) : List String :=
  ((examples.map (fun e => tokenizeTrain e.2)).flatten).dedup

/-- Prior probability of a label:
`p_ham = ham_df.shape[0] / training_df.shape[0]` (and likewise `p_spam`). -/
def pLabel (L : Label) (examples : List Example) : ℚ :=
  ((examplesWith L examples).length : ℚ) / (examples.length : ℚ)

/-- Total number of tokens in the messages of a label:
`n_vocab_given_ham = ham_df["SMS"].apply(len).sum()` (and likewise spam). -/
def nVocabGiven (L : Label) (examples : List Example) : ℕ :=
  ((examplesWith L examples).map (fun e => (tokenizeTrain e.2).length)).sum

/-- Number of occurrences of a word across the messages of a label:
`n_word_given_ham = ham_df[word].sum()` over the per-message word counts
(and likewise spam). -/
def nWordGiven (L : Label) (examples : List Example) (word : String) : ℕ :=
  ((examplesWith L examples).map (fun e => (tokenizeTrain e.2).count word)).sum

/-- Smoothed likelihood of a word given a label (calculate-parameters cell):
`(n_word_given_ham + alpha) / (n_vocab_given_ham + alpha * n_vocab_total)`. -/
def pWordGiven (L : Label) (examples : List Example) (alpha : ℚ) (word : String) : ℚ :=
  ((nWordGiven L examples word : ℚ) + alpha)
    / ((nVocabGiven L examples : ℚ) + alpha * ((vocabulary examples).length : ℚ))

/-- The per-label parameter table `parameters_ham` / `parameters_spam`:
a dict keyed by the vocabulary, holding each word's smoothed likelihood. -/
def parameters (L : Label) (examples : List Example) (alpha : ℚ) : List (String × ℚ) :=
  (vocabulary examples).map (fun w => (w, pWordGiven L examples alpha w))

/-- The durable trained artifact: priors and per-label likelihood tables
(the globals `p_ham`, `p_spam`, `parameters_ham`, `parameters_spam` that
`classify` reads). -/
structure Model where
  pHam : ℚ
  pSpam : ℚ
  parametersHam : List (String × ℚ)
  parametersSpam : List (String × ℚ)
deriving DecidableEq, Repr

/-- Assembling the trained model from the training cells. -/
def trainModel (examples : List Example) (alpha : ℚ) : Model :=
  { pHam := pLabel .ham examples
    pSpam := pLabel .spam examples
    parametersHam := parameters .ham examples alpha
    parametersSpam := parameters .spam examples alpha }

/-- The `InvalidInput` error of the training entry point, recording which
precondition was violated. -/
inductive InvalidInput where
  | emptyTrainingSet
  | negativeAlpha
deriving DecidableEq, Repr

/-- Modelled from the spec: the notebook has no named training entry point —
its training cells run unconditionally on a fixed dataframe, with `alpha = 1`
hard-coded and no input validation.  §6 of the specification describes the
missing boundary: the trainer accepts the examples and a smoothing constant
`alpha`, and "returns a Model or fails with InvalidInput if the collection is
empty or if alpha < 0", all-or-nothing. -/
def train (examples : List Example) (alpha : ℚ) : Except InvalidInput Model :=
  if examples.isEmpty then .error .emptyTrainingSet
  else if alpha < 0 then .error .negativeAlpha
  else .ok (trainModel examples alpha)

/-- One step of `classify`'s per-word loop: for each of the two tables,
if the word is a key of the table, multiply that label's running score by
the stored likelihood, otherwise leave it unchanged.  The pair is
(ham score, spam score). -/
def classifyStep (m : Model) (p : ℚ × ℚ) (word : String) : ℚ × ℚ :=
  let pHamGiven :=
    match m.parametersHam.lookup word with
    | some v => p.1 * v
    | none => p.1
  let pSpamGiven :=
    match m.parametersSpam.lookup word with
    | some v => p.2 * v
    | none => p.2
  (pHamGiven, pSpamGiven)

/-- The final (ham, spam) score pair of `classify`: running scores start at
the priors and are folded over the tokenized message. -/
def finalScores (m : Model) (message : String) : ℚ × ℚ :=
  (tokenizeClassify message).foldl (classifyStep m) (m.pHam, m.pSpam)

/-- The notebook's `classify(message)`: clean up the text, start both scores
at the priors, adjust them word by word, and return `"spam"` exactly when
`p_spam_given_message > p_ham_given_message`. -/
def classify (m : Model) (message : String) : Label :=
  let p := finalScores m message
  if p.2 > p.1 then .spam else .ham

/-- Specification-level score of a label for a message: the label's prior
times the product, over the in-vocabulary tokens of the message (once per
occurrence), of the label's smoothed likelihood for the token. -/
def score (L : Label) (examples : List Example) (alpha : ℚ) (message : String) : ℚ :=
  pLabel L examples *
    (((tokenizeClassify message).filter (fun w => (vocabulary examples).contains w)).map
      (pWordGiven L examples alpha)).prod

/-- The per-character normalization both tokenizers apply before splitting:
replace non-word characters by a space, then lowercase. -/
def normalizeChar (c : Char) : Char :=
  (if pyWordChar c then c else ' ').toLower

/- ### Helper lemmas -/

/-- `Char.isUpper` in terms of the scalar value. -/
theorem char_isUpper_iff (c : Char) : c.isUpper = true ↔ 65 ≤ c.toNat ∧ c.toNat ≤ 90 := by
  simp [Char.isUpper, Char.toNat, UInt32.le_def, BitVec.le_def, UInt32.toNat]

/-- `Char.isLower` in terms of the scalar value. -/
theorem char_isLower_iff (c : Char) : c.isLower = true ↔ 97 ≤ c.toNat ∧ c.toNat ≤ 122 := by
  simp [Char.isLower, Char.toNat, UInt32.le_def, BitVec.le_def, UInt32.toNat]

/-- `Char.isDigit` in terms of the scalar value. -/
theorem char_isDigit_iff (c : Char) : c.isDigit = true ↔ 48 ≤ c.toNat ∧ c.toNat ≤ 57 := by
  simp [Char.isDigit, Char.toNat, UInt32.le_def, BitVec.le_def, UInt32.toNat]

/-- Characters are equal exactly when their scalar values are. -/
theorem char_eq_iff_toNat (c d : Char) : c = d ↔ c.toNat = d.toNat := by
  constructor
  · intro h
    rw [h]
  · intro h
    apply Char.eq_of_val_eq
    apply UInt32.eq_of_toBitVec_eq
    apply BitVec.eq_of_toNat_eq
    exact h

/-- `Char.isWhitespace` in terms of the scalar value. -/
theorem char_isWhitespace_iff (c : Char) :
    c.isWhitespace = true ↔ c.toNat = 32 ∨ c.toNat = 9 ∨ c.toNat = 13 ∨ c.toNat = 10 := by
  simp only [Char.isWhitespace, Bool.or_eq_true, decide_eq_true_eq,
    char_eq_iff_toNat c ' ', char_eq_iff_toNat c '\t', char_eq_iff_toNat c '\r',
    char_eq_iff_toNat c '\n', show (' ').toNat = 32 from rfl, show ('\t').toNat = 9 from rfl,
    show ('\r').toNat = 13 from rfl, show ('\n').toNat = 10 from rfl]
  omega

/-- `Char.ofNat` of a small scalar value round-trips through `toNat`. -/
theorem char_toNat_ofNat_valid (n : Nat) (h : n < 55296) : (Char.ofNat n).toNat = n := by
  rw [Char.ofNat, dif_pos (Or.inl h)]
  rfl

/-- `Char.toLower` shifts an upper-case letter down by 32. -/
theorem char_toLower_of_upper (c : Char) (h : 65 ≤ c.toNat ∧ c.toNat ≤ 90) :
    c.toLower = Char.ofNat (c.toNat + 32) := by
  rw [Char.toLower, if_pos h]

/-- `Char.toLower` fixes everything outside the upper-case range. -/
theorem char_toLower_of_not_upper (c : Char) (h : ¬(65 ≤ c.toNat ∧ c.toNat ≤ 90)) :
    c.toLower = c := by
  rw [Char.toLower, if_neg h]

/-- Every normalized character is either whitespace or a lower-case word
character: a letter, digit, or underscore that is not upper-case. -/
theorem normalizeChar_cases (c : Char) :
    (normalizeChar c).isWhitespace = true ∨
      (((normalizeChar c).isAlphanum = true ∨ normalizeChar c = '_') ∧
        (normalizeChar c).isUpper = false) := by
  by_cases hw : pyWordChar c
  · right
    rw [normalizeChar, if_pos hw]
    have hn : (48 ≤ c.toNat ∧ c.toNat ≤ 57) ∨ (65 ≤ c.toNat ∧ c.toNat ≤ 90) ∨
        (97 ≤ c.toNat ∧ c.toNat ≤ 122) ∨ c.toNat = 95 := by
      rw [pyWordChar] at hw
      simp only [Bool.or_eq_true, Char.isAlphanum, Char.isAlpha, char_isUpper_iff,
        char_isLower_iff, char_isDigit_iff, beq_iff_eq, char_eq_iff_toNat c '_',
        show ('_').toNat = 95 from rfl] at hw
      omega
    by_cases hu : 65 ≤ c.toNat ∧ c.toNat ≤ 90
    · rw [char_toLower_of_upper c hu]
      have h32 : (Char.ofNat (c.toNat + 32)).toNat = c.toNat + 32 :=
        char_toNat_ofNat_valid _ (by omega)
      constructor
      · left
        simp only [Char.isAlphanum, Char.isAlpha, Bool.or_eq_true, char_isUpper_iff,
          char_isLower_iff, char_isDigit_iff, h32]
        omega
      · rw [Bool.eq_false_iff]
        simp only [ne_eq, char_isUpper_iff, h32]
        omega
    · rw [char_toLower_of_not_upper c hu]
      constructor
      · simp only [Char.isAlphanum, Char.isAlpha, Bool.or_eq_true, char_isUpper_iff,
          char_isLower_iff, char_isDigit_iff, char_eq_iff_toNat c '_',
          show ('_').toNat = 95 from rfl]
        omega
      · rw [Bool.eq_false_iff]
        simp only [ne_eq, char_isUpper_iff]
        omega
  · left
    rw [normalizeChar, if_neg hw]
    decide

/-- A token flushed from a nonempty accumulator of good characters is a
nonempty string of good characters. -/
theorem flushed_token_wf (P : Char → Prop) (acc : List Char) (hne : acc ≠ [])
    (hacc : ∀ c ∈ acc, P c) :
    acc.reverse.asString ≠ "" ∧ ∀ c ∈ acc.reverse.asString.data, P c := by
  constructor
  · intro h
    have hdata : acc.reverse = ([] : List Char) := congrArg String.data h
    exact hne (List.reverse_eq_nil_iff.mp hdata)
  · intro c hc
    exact hacc c (List.mem_reverse.mp hc)

/-- Every token produced by the whitespace splitter from a stream whose
non-whitespace characters satisfy `P` (and an accumulator of characters
satisfying `P`) is nonempty and made of characters satisfying `P`. -/
theorem pySplitAux_tokens_wf (P : Char → Prop) :
    ∀ (cs acc : List Char),
      (∀ c ∈ cs, c.isWhitespace = true ∨ P c) →
      (∀ c ∈ acc, P c) →
      ∀ t ∈ pySplitAux cs acc, t ≠ "" ∧ ∀ c ∈ t.data, P c := by
  intro cs
  induction cs with
  | nil =>
    intro acc hcs hacc t ht
    by_cases ha : acc.isEmpty
    · rw [pySplitAux, if_pos ha] at ht
      exact absurd ht (List.not_mem_nil t)
    · rw [pySplitAux, if_neg ha] at ht
      rcases List.mem_singleton.mp ht with rfl
      exact flushed_token_wf P acc (by simpa [List.isEmpty_iff] using ha) hacc
  | cons c cs ih =>
    intro acc hcs hacc t ht
    have hcs' : ∀ c' ∈ cs, c'.isWhitespace = true ∨ P c' :=
      fun c' hc' => hcs c' (List.mem_cons_of_mem c hc')
    by_cases hwc : c.isWhitespace
    · by_cases ha : acc.isEmpty
      · rw [pySplitAux, if_pos hwc, if_pos ha] at ht
        exact ih [] hcs' (by simp) t ht
      · rw [pySplitAux, if_pos hwc, if_neg ha] at ht
        rcases List.mem_cons.mp ht with rfl | ht'
        · exact flushed_token_wf P acc (by simpa [List.isEmpty_iff] using ha) hacc
        · exact ih [] hcs' (by simp) t ht'
    · rw [pySplitAux, if_neg hwc] at ht
      have hPc : P c := by
        rcases hcs c (List.mem_cons_self c cs) with h | h
        · exact absurd h hwc
        · exact h
      refine ih (c :: acc) hcs' ?_ t ht
      intro c' hc'
      rcases List.mem_cons.mp hc' with rfl | hc''
      · exact hPc
      · exact hacc c' hc''

/-- The classification-side tokenizer is the whitespace splitter applied to
the per-character normalization of the input. -/
theorem tokenizeClassify_eq_splitAux (s : String) :
    tokenizeClassify s = pySplitAux (s.data.map normalizeChar) [] := by
  rw [tokenizeClassify, pySplit, List.map_map]
  rfl

/-- Looking a key up in a table that pairs every element of `l` with its
image under `f` succeeds exactly on the elements of `l`. -/
theorem lookup_map_pair (l : List String) (f : String → ℚ) (w : String) :
    (l.map (fun x => (x, f x))).lookup w = if l.contains w then some (f w) else none := by
  induction l with
  | nil => rfl
  | cons x xs ih =>
    by_cases hwx : w = x
    · subst hwx
      simp [List.lookup, List.contains_cons]
    · have hbeq : (w == x) = false := beq_false_of_ne hwx
      simp [List.lookup, List.contains_cons, hbeq, ih, hwx]

/-- Unrolling `classify`'s per-word loop: starting from any pair of running
scores, the loop multiplies the first component by the values looked up in
`parametersHam` and the second by the values looked up in `parametersSpam`,
once per token occurrence; missing keys contribute nothing. -/
theorem foldl_classifyStep (m : Model) (ws : List String) (a b : ℚ) :
    ws.foldl (classifyStep m) (a, b) =
      (a * (ws.filterMap (fun w => m.parametersHam.lookup w)).prod,
       b * (ws.filterMap (fun w => m.parametersSpam.lookup w)).prod) := by
  induction ws generalizing a b with
  | nil => simp
  | cons w ws ih =>
    rw [List.foldl_cons, ih]
    rcases hh : m.parametersHam.lookup w with _ | vh <;>
      rcases hs : m.parametersSpam.lookup w with _ | vs <;>
        simp [classifyStep, hh, hs, mul_assoc]

/-- Looking a word up in a trained parameter table succeeds exactly on the
vocabulary, and returns the smoothed likelihood. -/
theorem lookup_parameters (L : Label) (examples : List Example) (alpha : ℚ) (w : String) :
    (parameters L examples alpha).lookup w =
      if (vocabulary examples).contains w then some (pWordGiven L examples alpha w)
      else none := by
  rw [parameters, lookup_map_pair]

/-- For a trained table, the looked-up values along a token list are exactly
the smoothed likelihoods of its in-vocabulary tokens. -/
theorem filterMap_lookup_parameters (L : Label) (examples : List Example) (alpha : ℚ)
    (ws : List String) :
    ws.filterMap (fun w => (parameters L examples alpha).lookup w) =
      (ws.filter (fun w => (vocabulary examples).contains w)).map
        (pWordGiven L examples alpha) := by
  induction ws with
  | nil => rfl
  | cons w ws ih =>
    rw [List.filterMap_cons, lookup_parameters, List.filter_cons]
    by_cases hc : (vocabulary examples).contains w
    · simp only [hc, if_true, List.map_cons, ih]
    · simp only [hc, Bool.false_eq_true, if_false, ih]

/- ### Claim theorems -/

/-- C1.  For every trained Model and every raw text string, `classify`
initializes one running score per label to that label's prior, multiplies
each label's score by that label's smoothed likelihood for each
in-vocabulary token of the tokenized message (once per occurrence), and
returns Spam exactly when the final Spam score is strictly greater than the
final Ham score, returning Ham otherwise. -/
theorem classify_decision_rule (examples : List Example) (alpha : ℚ) (message : String) :
    classify (trainModel examples alpha) message =
      if score .spam examples alpha message > score .ham examples alpha message
      then Label.spam else Label.ham := by
  have h := foldl_classifyStep (trainModel examples alpha) (tokenizeClassify message)
    (pLabel .ham examples) (pLabel .spam examples)
  rw [classify, finalScores, trainModel] at *
  rw [h, score, score, filterMap_lookup_parameters, filterMap_lookup_parameters]

/-- C8.  The tokenization applied at training time (pandas `str.replace` of
non-word characters with a space, lowercasing, whitespace split) and the
tokenization applied inside `classify` (`re.sub` of non-word characters with
a space, lowercasing, whitespace split) produce the identical ordered token
sequence on every input string. -/
theorem tokenizeTrain_eq_tokenizeClassify : ∀ s : String, tokenizeTrain s = tokenizeClassify s :=
  fun _ => rfl

/-- C10.  Both per-label likelihood tables of a trained Model are keyed by
exactly the global vocabulary, so the two membership tests inside `classify`
always agree: every token either succeeds in both lookups or fails in both. -/
theorem parameters_same_keys (examples : List Example) (alpha : ℚ) :
    (trainModel examples alpha).parametersHam.map Prod.fst = vocabulary examples ∧
    (trainModel examples alpha).parametersSpam.map Prod.fst = vocabulary examples ∧
    ∀ w : String,
      ((trainModel examples alpha).parametersHam.lookup w).isSome =
        ((trainModel examples alpha).parametersSpam.lookup w).isSome := by
  refine ⟨?_, ?_, ?_⟩
  · simp [trainModel, parameters, List.map_map, Function.comp_def]
  · simp [trainModel, parameters, List.map_map, Function.comp_def]
  · intro w
    rw [trainModel]
    simp only [lookup_parameters]
    by_cases hw : w ∈ vocabulary examples <;> simp [hw]

/-- C2.  For every token of the vocabulary, the trained likelihood tables
hold exactly the smoothed value
`(token_count[L][t] + alpha) / (total_tokens[L] + alpha * |Vocabulary|)`,
with `token_count` the number of occurrences of the token in that label's
training messages, `total_tokens` that label's total token count, and
`|Vocabulary|` the number of distinct tokens over all training examples. -/
theorem parameters_lookup_formula (examples : List Example) (alpha : ℚ) (t : String)
    (ht : t ∈ vocabulary examples) :
    (trainModel examples alpha).parametersHam.lookup t =
      some (((nWordGiven .ham examples t : ℚ) + alpha) /
        ((nVocabGiven .ham examples : ℚ) + alpha * ((vocabulary examples).length : ℚ))) ∧
    (trainModel examples alpha).parametersSpam.lookup t =
      some (((nWordGiven .spam examples t : ℚ) + alpha) /
        ((nVocabGiven .spam examples : ℚ) + alpha * ((vocabulary examples).length : ℚ))) := by
  have hc : (vocabulary examples).contains t := by
    simpa using ht
  constructor <;>
    · rw [trainModel]
      simp only [lookup_parameters, hc, if_true]
      rfl

/-- Witness for C2 at a concrete training set: the token `"b"` belongs to
the vocabulary, and the trained tables hold its smoothed likelihoods. -/
theorem parameters_lookup_formula_witness :
    "b" ∈ vocabulary [(Label.ham, "a b a"), (Label.spam, "b c")] ∧
    ((trainModel [(Label.ham, "a b a"), (Label.spam, "b c")] 1).parametersHam.lookup "b" =
      some (((nWordGiven .ham [(Label.ham, "a b a"), (Label.spam, "b c")] "b" : ℚ) + 1) /
        ((nVocabGiven .ham [(Label.ham, "a b a"), (Label.spam, "b c")] : ℚ) +
          1 * ((vocabulary [(Label.ham, "a b a"), (Label.spam, "b c")]).length : ℚ))) ∧
     (trainModel [(Label.ham, "a b a"), (Label.spam, "b c")] 1).parametersSpam.lookup "b" =
      some (((nWordGiven .spam [(Label.ham, "a b a"), (Label.spam, "b c")] "b" : ℚ) + 1) /
        ((nVocabGiven .spam [(Label.ham, "a b a"), (Label.spam, "b c")] : ℚ) +
          1 * ((vocabulary [(Label.ham, "a b a"), (Label.spam, "b c")]).length : ℚ)))) :=
  ⟨by decide, parameters_lookup_formula [(Label.ham, "a b a"), (Label.spam, "b c")] 1 "b"
    (by decide)⟩

/-- C3.  Training fails with an `InvalidInput` error when the collection of
training examples is empty, and also when the smoothing constant alpha is
negative; the result being an `Except.error`, no Model is produced in either
case (all-or-nothing). -/
theorem train_invalid_input (examples : List Example) (alpha : ℚ)
    (h : examples = [] ∨ alpha < 0) :
    train examples alpha =
      .error (if examples.isEmpty then .emptyTrainingSet else .negativeAlpha) := by
  rcases h with h | h
  · subst h
    rfl
  · rw [train]
    by_cases he : examples.isEmpty
    · simp [he]
    · simp [he, h]

/-- Witness for C3: training on the empty collection fails with
`emptyTrainingSet`, and training with `alpha =-1` fails with
`negativeAlpha`; neither produces a model. -/
theorem train_invalid_input_witness :
    train ([] : List Example) 1 = .error .emptyTrainingSet ∧
    train [(Label.ham, "a")] (-1) = .error .negativeAlpha :=
  ⟨train_invalid_input [] 1 (Or.inl rfl),
   train_invalid_input [(Label.ham, "a")] (-1) (Or.inr (by decide))⟩

/-- The examples carrying the two labels partition the training set. -/
theorem length_examplesWith_add (examples : List Example) :
    (examplesWith .spam examples).length + (examplesWith .ham examples).length =
      examples.length := by
  induction examples with
  | nil => rfl
  | cons e es ih =>
    rcases e with ⟨L, s⟩
    cases L <;> simp [examplesWith, List.filter_cons] at * <;> omega

/-- C5.  For every successfully trained Model, `prior[Spam] + prior[Ham] = 1`:
each prior is the count of examples with that label divided by the total
example count, and every example's label is one of the two. -/
theorem priors_sum_one (examples : List Example) (alpha : ℚ) (m : Model)
    (h : train examples alpha = .ok m) : m.pSpam + m.pHam = 1 := by
  rw [train] at h
  by_cases he : examples.isEmpty
  · simp [he] at h
  · by_cases ha : alpha < 0
    · simp [he, ha] at h
    · simp only [he, Bool.false_eq_true, if_false, ha, Except.ok.injEq] at h
      subst h
      have hne : examples ≠ [] := by
        simpa [List.isEmpty_iff] using he
      have hn : ((examples.length : ℚ)) ≠ 0 := by
        simpa using List.length_eq_zero.not.mpr hne
      rw [trainModel]
      simp only [pLabel]
      rw [div_add_div_same, ← Nat.cast_add, length_examplesWith_add, div_self hn]

/-- Witness for C5 at a concrete training set. -/
theorem priors_sum_one_witness :
    (trainModel [(Label.ham, "a b a"), (Label.spam, "b c")] 1).pSpam +
      (trainModel [(Label.ham, "a b a"), (Label.spam, "b c")] 1).pHam = 1 :=
  priors_sum_one [(Label.ham, "a b a"), (Label.spam, "b c")] 1 _ rfl

/-- C6.  When the two final classification scores are exactly equal,
`classify` returns the fixed default label Ham (the strict `>` comparison
falls through to the `else` branch); on the empty string both scores remain
the unadjusted priors, so `classify` returns Ham whenever the priors are
equal and otherwise the label with the strictly higher prior. -/
theorem classify_tie_default_ham (m : Model) (s : String) :
    ((finalScores m s).2 = (finalScores m s).1 → classify m s = Label.ham) ∧
    finalScores m "" = (m.pHam, m.pSpam) ∧
    classify m "" = if m.pSpam > m.pHam then Label.spam else Label.ham := by
  refine ⟨?_, rfl, rfl⟩
  intro h
  show (if (finalScores m s).2 > (finalScores m s).1 then Label.spam else Label.ham) = Label.ham
  rw [h]
  simp

/-- Witness for C6: on a model trained from one ham and one spam example the
priors are both 1/2, the final scores on the empty string coincide, and
`classify` returns Ham. -/
theorem classify_tie_default_ham_witness :
    classify (trainModel [(Label.ham, "a"), (Label.spam, "b")] 1) "" = Label.ham :=
  (classify_tie_default_ham (trainModel [(Label.ham, "a"), (Label.spam, "b")] 1) "").1 rfl

/-- C7.  Classifying a message all of whose tokens are absent from both
parameter tables returns the same label as classifying the empty string:
out-of-vocabulary tokens leave both running scores unchanged, so both calls
compare the raw priors. -/
theorem classify_oov_eq_classify_empty (m : Model) (s : String)
    (h : ∀ w ∈ tokenizeClassify s,
      m.parametersHam.lookup w = none ∧ m.parametersSpam.lookup w = none) :
    classify m s = classify m "" := by
  have h1 : (tokenizeClassify s).filterMap (fun w => m.parametersHam.lookup w) = [] :=
    List.filterMap_eq_nil_iff.mpr (fun w hw => (h w hw).1)
  have h2 : (tokenizeClassify s).filterMap (fun w => m.parametersSpam.lookup w) = [] :=
    List.filterMap_eq_nil_iff.mpr (fun w hw => (h w hw).2)
  have hs : finalScores m s = (m.pHam, m.pSpam) := by
    rw [finalScores, foldl_classifyStep, h1, h2]
    simp
  show (if (finalScores m s).2 > (finalScores m s).1 then Label.spam else Label.ham) =
    (if (finalScores m "").2 > (finalScores m "").1 then Label.spam else Label.ham)
  rw [hs]
  rfl

/-- Witness for C7: on a model trained from `"a b"` and `"b c"` the token
`zzqqxx_not_in_vocab` misses both tables, and the message classifies like the
empty string. -/
theorem classify_oov_eq_classify_empty_witness :
    classify (trainModel [(Label.ham, "a b"), (Label.spam, "b c")] 1) "zzqqxx_not_in_vocab" =
      classify (trainModel [(Label.ham, "a b"), (Label.spam, "b c")] 1) "" :=
  classify_oov_eq_classify_empty (trainModel [(Label.ham, "a b"), (Label.spam, "b c")] 1)
    "zzqqxx_not_in_vocab" (by decide)

/-- Summing a pointwise sum of two functions over a list splits. -/
theorem sum_map_add_fun (l : List String) (f g : String → ℕ) :
    (l.map (fun x => f x + g x)).sum = (l.map f).sum + (l.map g).sum := by
  induction l with
  | nil => rfl
  | cons x xs ih => simp [ih]; omega

/-- Dividing each summand by a common denominator divides the sum. -/
theorem sum_map_div_const (l : List String) (f : String → ℚ) (d : ℚ) :
    (l.map (fun x => f x / d)).sum = (l.map f).sum / d := by
  induction l with
  | nil => simp
  | cons x xs ih => simp [ih, add_div]

/-- Adding a constant to each summand adds `length • constant` to the sum. -/
theorem sum_map_add_const (l : List String) (f : String → ℚ) (c : ℚ) :
    (l.map (fun x => f x + c)).sum = (l.map f).sum + (l.length : ℚ) * c := by
  induction l with
  | nil => simp
  | cons x xs ih =>
    simp [ih]
    ring

/-- A sum of casts is the cast of the sum. -/
theorem sum_map_natCast (l : List String) (f : String → ℕ) :
    (l.map (fun x => ((f x : ℕ) : ℚ))).sum = (((l.map f).sum : ℕ) : ℚ) := by
  induction l with
  | nil => simp
  | cons x xs ih => simp [ih]

/-- Summing the multiplicities of every element of a duplicate-free superset
recovers the length of a list. -/
theorem sum_count_over_superset (l V : List String) (hnd : V.Nodup)
    (hsub : ∀ w ∈ l, w ∈ V) :
    (V.map (fun w => l.count w)).sum = l.length := by
  rw [← List.sum_toFinset _ hnd]
  have hsub' : l.toFinset ⊆ V.toFinset :=
    fun w hw => List.mem_toFinset.mpr (hsub w (List.mem_toFinset.mp hw))
  rw [← Finset.sum_subset hsub'
    (fun w _ hwl => List.count_eq_zero.mpr (fun hmem => hwl (List.mem_toFinset.mpr hmem)))]
  exact List.sum_toFinset_count_eq_length l

/-- Summing, over a duplicate-free vocabulary covering every message, the
per-word occurrence totals of a collection of examples gives the total token
count of the collection. -/
theorem sum_counts_eq_total_length (T : List Example) (V : List String) (hnd : V.Nodup)
    (hcov : ∀ e ∈ T, ∀ w ∈ tokenizeTrain e.2, w ∈ V) :
    (V.map (fun w => (T.map (fun e => (tokenizeTrain e.2).count w)).sum)).sum =
      (T.map (fun e => (tokenizeTrain e.2).length)).sum := by
  induction T with
  | nil => simp
  | cons e T ih =>
    simp only [List.map_cons, List.sum_cons]
    rw [sum_map_add_fun]
    rw [sum_count_over_superset (tokenizeTrain e.2) V hnd (hcov e (List.mem_cons_self e T))]
    rw [ih (fun e' he' => hcov e' (List.mem_cons_of_mem e he'))]

/-- Per-label occurrence totals over the vocabulary sum to the label's total
token count: every token of every training message belongs to the global
vocabulary. -/
theorem sum_nWordGiven_eq_nVocabGiven (L : Label) (examples : List Example) :
    ((vocabulary examples).map (fun w => nWordGiven L examples w)).sum =
      nVocabGiven L examples := by
  simp only [nWordGiven, nVocabGiven]
  apply sum_counts_eq_total_length
  · exact List.nodup_dedup _
  · intro e he w hw
    rw [vocabulary]
    rw [List.mem_dedup]
    rw [List.mem_flatten]
    refine ⟨tokenizeTrain e.2, ?_, hw⟩
    exact List.mem_map_of_mem _ (List.mem_of_mem_filter he)

/-- C4 counterexample.  A training set whose single message is pure
punctuation yields a valid trained Model (training succeeds) with an empty
vocabulary, and the sum of its ham likelihoods over the vocabulary is the
empty sum `0`, not `1`. -/
theorem likelihood_sum_one_counterexample :
    train [(Label.ham, ".")] 1 = .ok (trainModel [(Label.ham, ".")] 1) ∧
    ((trainModel [(Label.ham, ".")] 1).parametersHam.map Prod.snd).sum = 0 ∧
    ((trainModel [(Label.ham, ".")] 1).parametersHam.map Prod.snd).sum ≠ 1 := by
  refine ⟨rfl, rfl, ?_⟩
  intro h
  exact absurd (h.symm.trans (rfl : ((trainModel [(Label.ham, ".")] 1).parametersHam.map
    Prod.snd).sum = 0)) (by decide)

/-- C4 (amended).  For every trained Model with a strictly positive smoothing
constant and a nonempty vocabulary, the likelihoods of each label sum to `1`
exactly over the vocabulary, in exact rational arithmetic. -/
theorem likelihood_sum_one (examples : List Example) (alpha : ℚ) (L : Label)
    (hα : 0 < alpha) (hv : vocabulary examples ≠ []) :
    ((parameters L examples alpha).map Prod.snd).sum = 1 := by
  have hpos : (0 : ℚ) < (nVocabGiven L examples : ℚ) +
      alpha * ((vocabulary examples).length : ℚ) := by
    have hlen : 0 < (vocabulary examples).length := List.length_pos.mpr hv
    have h1 : (0 : ℚ) < alpha * ((vocabulary examples).length : ℚ) :=
      mul_pos hα (by exact_mod_cast hlen)
    have h2 : (0 : ℚ) ≤ (nVocabGiven L examples : ℚ) := Nat.cast_nonneg _
    linarith
  have hD : (nVocabGiven L examples : ℚ) + alpha * ((vocabulary examples).length : ℚ) ≠ 0 :=
    ne_of_gt hpos
  rw [parameters, List.map_map]
  have hcomp : (Prod.snd ∘ fun w => (w, pWordGiven L examples alpha w)) =
      fun w => pWordGiven L examples alpha w := rfl
  rw [hcomp]
  simp only [pWordGiven]
  rw [sum_map_div_const, sum_map_add_const, sum_map_natCast, sum_nWordGiven_eq_nVocabGiven]
  rw [mul_comm ((vocabulary examples).length : ℚ) alpha]
  exact div_self hD

/-- Witness for the amended C4 at a concrete training set with `alpha = 1`. -/
theorem likelihood_sum_one_witness :
    (0 : ℚ) < 1 ∧ vocabulary [(Label.ham, "a b a"), (Label.spam, "b c")] ≠ [] ∧
    ((parameters .ham [(Label.ham, "a b a"), (Label.spam, "b c")] 1).map Prod.snd).sum = 1 :=
  ⟨by decide, by decide,
    likelihood_sum_one [(Label.ham, "a b a"), (Label.spam, "b c")] 1 .ham (by decide) (by decide)⟩

/-- C9.  The tokenizer replaces every character that is not a letter, digit,
or underscore with whitespace, lowercases, splits on runs of whitespace, and
discards empty tokens; consequently every produced token is non-empty,
contains only letters, digits, and underscores, and contains no uppercase
letters.  Tokenization is a total function, so it never fails, on
punctuation-only or whitespace-only input included. -/
theorem tokenize_tokens_wf (s t : String) (ht : t ∈ tokenizeClassify s) :
    t ≠ "" ∧ ∀ c ∈ t.data, (c.isAlphanum = true ∨ c = '_') ∧ c.isUpper = false := by
  rw [tokenizeClassify_eq_splitAux] at ht
  refine pySplitAux_tokens_wf
    (fun c => (c.isAlphanum = true ∨ c = '_') ∧ c.isUpper = false)
    (s.data.map normalizeChar) [] ?_ (by simp) t ht
  intro c hc
  rcases List.mem_map.mp hc with ⟨c₀, _, rfl⟩
  exact normalizeChar_cases c₀

/-- Witness for C9: tokenizing `"Hello, World!"` yields the token `"hello"`,
which is nonempty, all lower-case, and made of word characters. -/
theorem tokenize_tokens_wf_witness :
    "hello" ∈ tokenizeClassify "Hello, World!" ∧
    ("hello" ≠ "" ∧ ∀ c ∈ "hello".data, (c.isAlphanum = true ∨ c = '_') ∧ c.isUpper = false) :=
  ⟨by decide, tokenize_tokens_wf "Hello, World!" "hello" (by decide)⟩

end SpamFilter
